import Mathlib

/-!
Verification of the acoustid-index specification against the repository's
source.  The StreamVByte table generator and the legacy line-protocol proxy
are embedded from the Python source under `src/`; the per-index storage and
search engine itself is not part of the Python sources (only its tests and
callers are), so it is modelled from the specification, as noted on each
definition.
-/

namespace AcoustidIndex

/-! ### StreamVByte decode tables, from `src/generate_shuffle_tables.py` -/

/-- Embeds `generate_length_table_0124` (one entry): the inner loop over the
four 2-bit codes of a control byte, accumulating 0/1/2/4 data bytes. -/
def lengthEntry0124 (controlByte : Nat) : Nat :=
  (List.range 4).foldl
    (fun totalLen i =>
      let code := (controlByte >>> (2 * i)) &&& 0x3
      if code = 0 then totalLen + 0
      else if code = 1 then totalLen + 1
      else if code = 2 then totalLen + 2
      else totalLen + 4)
    0

/-- Embeds `generate_length_table_0124`: 256 entries indexed by control byte. -/
def generate_length_table_0124 : List Nat :=
  (List.range 256).map lengthEntry0124

/-- Embeds `generate_length_table_1234` (one entry): codes 0..3 contribute
1/2/3/4 data bytes. -/
def lengthEntry1234 (controlByte : Nat) : Nat :=
  (List.range 4).foldl
    (fun totalLen i =>
      let code := (controlByte >>> (2 * i)) &&& 0x3
      if code = 0 then totalLen + 1
      else if code = 1 then totalLen + 2
      else if code = 2 then totalLen + 3
      else totalLen + 4)
    0

/-- Embeds `generate_length_table_1234`: 256 entries indexed by control byte. -/
def generate_length_table_1234 : List Nat :=
  (List.range 256).map lengthEntry1234

/-- Embeds the loop body of `generate_shuffle_table_0124`: one 16-byte shuffle
mask, built lane by lane; unassigned positions keep the initial `-1`. -/
def shuffleEntry0124 (controlByte : Nat) : List Int :=
  ((List.range 4).foldl
    (fun (st : List Int × Nat) i =>
      let mask := st.1
      let inputPos := st.2
      let code := (controlByte >>> (2 * i)) &&& 0x3
      let outputBase := i * 4
      if code = 0 then
        (mask, inputPos)
      else if code = 1 then
        (mask.set outputBase (Int.ofNat inputPos), inputPos + 1)
      else if code = 2 then
        (((mask.set outputBase (Int.ofNat inputPos)).set
            (outputBase + 1) (Int.ofNat (inputPos + 1))), inputPos + 2)
      else
        (((((mask.set outputBase (Int.ofNat inputPos)).set
            (outputBase + 1) (Int.ofNat (inputPos + 1))).set
            (outputBase + 2) (Int.ofNat (inputPos + 2))).set
            (outputBase + 3) (Int.ofNat (inputPos + 3))), inputPos + 4))
    (List.replicate 16 (-1 : Int), 0)).1

/-- Embeds `generate_shuffle_table_0124`: 256 shuffle masks. -/
def generate_shuffle_table_0124 : List (List Int) :=
  (List.range 256).map shuffleEntry0124

/-- Embeds the loop body of `generate_shuffle_table_1234`: codes 0..3 consume
1/2/3/4 input bytes. -/
def shuffleEntry1234 (controlByte : Nat) : List Int :=
  ((List.range 4).foldl
    (fun (st : List Int × Nat) i =>
      let mask := st.1
      let inputPos := st.2
      let code := (controlByte >>> (2 * i)) &&& 0x3
      let outputBase := i * 4
      if code = 0 then
        (mask.set outputBase (Int.ofNat inputPos), inputPos + 1)
      else if code = 1 then
        (((mask.set outputBase (Int.ofNat inputPos)).set
            (outputBase + 1) (Int.ofNat (inputPos + 1))), inputPos + 2)
      else if code = 2 then
        ((((mask.set outputBase (Int.ofNat inputPos)).set
            (outputBase + 1) (Int.ofNat (inputPos + 1))).set
            (outputBase + 2) (Int.ofNat (inputPos + 2))), inputPos + 3)
      else
        (((((mask.set outputBase (Int.ofNat inputPos)).set
            (outputBase + 1) (Int.ofNat (inputPos + 1))).set
            (outputBase + 2) (Int.ofNat (inputPos + 2))).set
            (outputBase + 3) (Int.ofNat (inputPos + 3))), inputPos + 4))
    (List.replicate 16 (-1 : Int), 0)).1

/-- Embeds `generate_shuffle_table_1234`: 256 shuffle masks. -/
def generate_shuffle_table_1234 : List (List Int) :=
  (List.range 256).map shuffleEntry1234

/-- Byte length that the claim assigns to a 2-bit code in the 0124 variant:
code k contributes 0, 1, 2, 4 bytes for k = 0..3. -/
def claimCodeBytes0124 (code : Nat) : Nat :=
  if code = 3 then 4 else code

/-- Byte length that the claim assigns to a 2-bit code in the 1234 variant:
code k contributes k + 1 bytes. -/
def claimCodeBytes1234 (code : Nat) : Nat :=
  code + 1

/-- Sum over the four 2-bit codes of a control byte, 0124 variant, as the
claim states it. -/
def claimLaneSum0124 (c : Nat) : Nat :=
  claimCodeBytes0124 ((c >>> 0) &&& 0x3) + claimCodeBytes0124 ((c >>> 2) &&& 0x3) +
    claimCodeBytes0124 ((c >>> 4) &&& 0x3) + claimCodeBytes0124 ((c >>> 6) &&& 0x3)

/-- Sum over the four 2-bit codes of a control byte, 1234 variant, as the
claim states it. -/
def claimLaneSum1234 (c : Nat) : Nat :=
  claimCodeBytes1234 ((c >>> 0) &&& 0x3) + claimCodeBytes1234 ((c >>> 2) &&& 0x3) +
    claimCodeBytes1234 ((c >>> 4) &&& 0x3) + claimCodeBytes1234 ((c >>> 6) &&& 0x3)

/-! ### Legacy line-protocol proxy, from `src/legacy-proxy/proxy.py` -/

/-- Embeds the hash normalisation in the `insert` branch of
`Protocol.handle_request`: `int(v) & 0xffffffff`.  Python's `&` on arbitrary
integers is bitwise AND of the infinite two's-complement representations,
which is exactly `Int.land`. -/
def maskHash (v : Int) : Int :=
  Int.land v 0xffffffff

/-- Embeds the change record built by the `insert` branch: the doc id and the
masked hash list.  The branch is total: it never rejects a hash value. -/
def insertChange (docId : Int) (hashValues : List Int) : Int × List Int :=
  (docId, hashValues.map maskHash)

/-! ### Index core model

The storage and search engine is not among the Python sources (src/ holds
only its HTTP tests), so the definitions below are modelled from the
specification, §3 (data model), §4.5 (stage write path), §4.9 (searcher) and
§4.4 (oplog). -/

/-- Modelled from the spec: a `Change` is `Insert {id, hashes}`,
`Delete {id}` or `SetAttribute {name, value}`. -/
inductive Change where
  | insert (id : Nat) (hashes : List Nat)
  | delete (id : Nat)
  | setAttribute (name : String) (value : Int)
deriving DecidableEq

/-- Modelled from the spec: an `UpdateBatch` is a change list with optional
metadata and an optional `expected_version`. -/
structure UpdateBatch where
  changes : List Change
  metadata : List (String × String)
  expectedVersion : Option Nat
deriving DecidableEq

/-- Error kinds surfaced by the core (spec §7). -/
inductive ErrKind where
  | versionMismatch
  | fingerprintNotFound
  | indexNotFound
  | badIndexName
deriving DecidableEq

/-- HTTP status attached to each error kind (spec §7). -/
def httpStatus : ErrKind → Nat
  | .versionMismatch => 409
  | .fingerprintNotFound => 404
  | .indexNotFound => 404
  | .badIndexName => 400

/-- Error name string carried in the error body (spec §7 and the tests). -/
def errName : ErrKind → String
  | .versionMismatch => "VersionMismatch"
  | .fingerprintNotFound => "FingerprintNotFound"
  | .indexNotFound => "IndexNotFound"
  | .badIndexName => "BadIndexName"

/-- Modelled from the spec: a live document with its hash list and the
version of the batch that last inserted it. -/
structure Doc where
  hashes : List Nat
  version : Nat
deriving DecidableEq

/-- Modelled from the spec: the logical state of one index — live docs (the
union of segments and stage applied in version order), attributes, the index
version, and the oplog of applied batches keyed by version. -/
structure IndexState where
  docs : List (Nat × Doc)
  attributes : List (String × Int)
  version : Nat
  oplog : List (Nat × UpdateBatch)
deriving DecidableEq

/-- Modelled from the spec: a freshly created index, version 0. -/
def emptyIndex : IndexState :=
  ⟨[], [], 0, []⟩

/-- Modelled from the spec (§4.5 write path): effect of one change on the
live docs.  `Insert` replaces any prior state of the id and records the new
version; `Delete` removes the id. -/
def applyChangeDocs (v : Nat) (docs : List (Nat × Doc)) : Change → List (Nat × Doc)
  | .insert id hashes => (id, ⟨hashes, v⟩) :: docs.filter (fun p => decide (p.1 ≠ id))
  | .delete id => docs.filter (fun p => decide (p.1 ≠ id))
  | .setAttribute _ _ => docs

/-- Modelled from the spec: effect of one change on the attribute map. -/
def applyChangeAttrs (attrs : List (String × Int)) : Change → List (String × Int)
  | .setAttribute n v => (n, v) :: attrs.filter (fun p => decide (p.1 ≠ n))
  | _ => attrs

/-- Modelled from the spec: the success path of `apply` — assign version
`current + 1`, apply the changes in order, append the batch to the oplog. -/
def applyBatchOk (st : IndexState) (b : UpdateBatch) : Nat × IndexState :=
  let v := st.version + 1
  (v, ⟨b.changes.foldl (applyChangeDocs v) st.docs,
       b.changes.foldl applyChangeAttrs st.attributes,
       v,
       st.oplog ++ [(v, b)]⟩)

/-- Modelled from the spec (§4.5 step 1): `apply(batch)` — if
`expected_version` is present and differs from the current index version the
batch fails with `VersionMismatch`, otherwise it is applied and the new
version returned. -/
def applyBatch (st : IndexState) (b : UpdateBatch) : Except ErrKind (Nat × IndexState) :=
  match b.expectedVersion with
  | some ev =>
    if ev = st.version then .ok (applyBatchOk st b) else .error .versionMismatch
  | none => .ok (applyBatchOk st b)

/-- Runs a batch, keeping the old state when the batch fails. -/
def applyRun (st : IndexState) (b : UpdateBatch) : IndexState :=
  match applyBatch st b with
  | .ok (_, st2) => st2
  | .error _ => st

/-- Runs a batch list, keeping the old state at each failure. -/
def applyAll (st : IndexState) (bs : List UpdateBatch) : IndexState :=
  bs.foldl applyRun st

/-- Runs a batch list, returning `none` when any batch fails. -/
def applyAllOk (st : IndexState) : List UpdateBatch → Option IndexState
  | [] => some st
  | b :: bs =>
    match applyBatch st b with
    | .ok (_, st2) => applyAllOk st2 bs
    | .error _ => none

/-- Modelled from the spec: `GET /{index}/{id}` — the version of the live
doc, or `FingerprintNotFound`. -/
def getDoc (st : IndexState) (id : Nat) : Except ErrKind Nat :=
  match st.docs.lookup id with
  | some d => .ok d.version
  | none => .error .fingerprintNotFound

/-- Modelled from the spec (§4.9 scoring): the score of a doc for a query is
the number of distinct query hashes present in the doc's hash set; the
searcher deduplicates the query before scanning. -/
def docScore (query : List Nat) (hashes : List Nat) : Nat :=
  (query.dedup.filter (fun h => decide (h ∈ hashes))).length

/-- Score of a given doc id for a query (0 when the id is not live). -/
def scoreOf (st : IndexState) (query : List Nat) (id : Nat) : Nat :=
  match st.docs.lookup id with
  | some d => docScore query d.hashes
  | none => 0

/-- Result ordering (spec §4.9 step 4): descending score, ties broken by
smaller doc id first. -/
def resBefore (a b : Nat × Nat) : Bool :=
  decide (b.2 < a.2) || (decide (a.2 = b.2) && decide (a.1 ≤ b.1))

/-- Insertion into a list sorted by `resBefore`. -/
def insertSorted (x : Nat × Nat) : List (Nat × Nat) → List (Nat × Nat)
  | [] => [x]
  | y :: ys => if resBefore x y then x :: y :: ys else y :: insertSorted x ys

/-- Insertion sort by `resBefore`. -/
def sortResults (l : List (Nat × Nat)) : List (Nat × Nat) :=
  l.foldr insertSorted []

/-- Modelled from the spec (§4.9): score every live doc, keep positive
scores, order by descending score (ties by smaller id), take the top `limit`
as `(id, score)` pairs. -/
def searchResults (st : IndexState) (query : List Nat) (limit : Nat) : List (Nat × Nat) :=
  let scored := st.docs.map (fun p => (p.1, docScore query p.2.hashes))
  (sortResults (scored.filter (fun r => decide (0 < r.2)))).take limit

/-- Search with the default limit of 40 (spec §4.9). -/
def search (st : IndexState) (query : List Nat) : List (Nat × Nat) :=
  searchResults st query 40

/-- Modelled from the spec (§4.4, §4.11): replay of one committed oplog
record during recovery — reapply its changes and move to its version. -/
def replayRecord (st : IndexState) (r : Nat × UpdateBatch) : IndexState :=
  ⟨r.2.changes.foldl (applyChangeDocs r.1) st.docs,
   r.2.changes.foldl applyChangeAttrs st.attributes,
   r.1,
   st.oplog ++ [r]⟩

/-- Modelled from the spec (§4.11 open step 3): recovery replays the oplog
into a fresh index. -/
def recoverState (log : List (Nat × UpdateBatch)) : IndexState :=
  log.foldl replayRecord emptyIndex

/-! ### Response values and content negotiation

Modelled from the spec (§6.1): the JSON and MessagePack response shapes are
isomorphic; MessagePack uses short keys, JSON long keys. -/

/-- Structured response value, common to both wire encodings. -/
inductive Value where
  | num (n : Nat)
  | str (s : String)
  | arr (xs : List Value)
  | obj (fields : List (String × Value))

/-- Renames one MessagePack short key to its JSON long key (spec §6.1). -/
def longKey (k : String) : String :=
  if k = "r" then "results"
  else if k = "i" then "id"
  else if k = "s" then "score"
  else if k = "v" then "version"
  else if k = "m" then "metadata"
  else if k = "h" then "hashes"
  else if k = "c" then "changes"
  else if k = "q" then "query"
  else k

/-- Recursively renames every short key in a value to its long key. -/
def renameKeys : Value → Value
  | .num n => .num n
  | .str s => .str s
  | .arr xs => .arr (xs.attach.map (fun x => renameKeys x.1))
  | .obj fields => .obj (fields.attach.map (fun p => (longKey p.1.1, renameKeys p.1.2)))
termination_by v => sizeOf v
decreasing_by
  all_goals first
  | (have h := List.sizeOf_lt_of_mem x.2
     simp only [Value.arr.sizeOf_spec]
     omega)
  | (have h := List.sizeOf_lt_of_mem p.2
     obtain ⟨⟨k, w⟩, hp⟩ := p
     simp only [Prod.mk.sizeOf_spec, Value.obj.sizeOf_spec] at h ⊢
     omega)

/-- One search hit. -/
structure SearchResult where
  id : Nat
  score : Nat
deriving DecidableEq

/-- A search response: the ranked hit list. -/
structure SearchResponse where
  results : List SearchResult
deriving DecidableEq

/-- JSON (long-key) encoding of one search hit. -/
def encodeResultLong (r : SearchResult) : Value :=
  .obj [("id", .num r.id), ("score", .num r.score)]

/-- MessagePack (short-key) encoding of one search hit. -/
def encodeResultShort (r : SearchResult) : Value :=
  .obj [("i", .num r.id), ("s", .num r.score)]

/-- JSON (long-key) encoding of a search response. -/
def encodeSearchLong (resp : SearchResponse) : Value :=
  .obj [("results", .arr (resp.results.map encodeResultLong))]

/-- MessagePack (short-key) encoding of a search response. -/
def encodeSearchShort (resp : SearchResponse) : Value :=
  .obj [("r", .arr (resp.results.map encodeResultShort))]

/-- Domain search response for a query against an index state. -/
def searchResponseOf (st : IndexState) (query : List Nat) : SearchResponse :=
  ⟨(search st query).map (fun r => ⟨r.1, r.2⟩)⟩

/-- Collects a list of numeric values, failing on any non-number. -/
def collectNats : List Value → Option (List Nat)
  | [] => some []
  | .num n :: rest => (collectNats rest).map (fun l => n :: l)
  | _ => none

/-- Decodes a JSON (long-key) search request body to the domain query. -/
def parseSearchLong : Value → Option (List Nat)
  | .obj fields =>
    match fields.lookup "query" with
    | some (.arr xs) => collectNats xs
    | _ => none
  | _ => none

/-- Decodes a MessagePack (short-key) search request body to the domain
query. -/
def parseSearchShort : Value → Option (List Nat)
  | .obj fields =>
    match fields.lookup "q" with
    | some (.arr xs) => collectNats xs
    | _ => none
  | _ => none

/-- JSON (long-key) encoding of a search request. -/
def encodeQueryLong (q : List Nat) : Value :=
  .obj [("query", .arr (q.map .num))]

/-- MessagePack (short-key) encoding of a search request. -/
def encodeQueryShort (q : List Nat) : Value :=
  .obj [("q", .arr (q.map .num))]

/-! ### Index lifecycle over HTTP

Modelled from the spec (§6.1, §7): `PUT /{index}` and `DELETE /{index}` are
idempotent and return `{}`; `HEAD` reports existence. -/

/-- Index-name grammar (spec §6.1): subsequent chars. -/
def validNameChar (c : Char) : Bool :=
  c.isAlphanum || c = '_' || c = '-'

/-- Index-name grammar (spec §6.1): first char `[A-Za-z0-9]`, subsequent
`[A-Za-z0-9_-]`. -/
def validIndexName (s : String) : Bool :=
  match s.data with
  | [] => false
  | c :: rest => c.isAlphanum && rest.all validNameChar

/-- An HTTP reply: status and decoded body. -/
structure HttpReply where
  status : Nat
  body : Value

/-- Modelled from the spec: `PUT /{index}` — create if missing, succeed with
`{}` either way; invalid names fail with `BadIndexName` 400. -/
def putIndex (st : List String) (name : String) : HttpReply × List String :=
  if validIndexName name then
    (⟨200, .obj []⟩, if name ∈ st then st else name :: st)
  else
    (⟨httpStatus .badIndexName, .obj [("error", .str (errName .badIndexName))]⟩, st)

/-- Modelled from the spec: `DELETE /{index}` — remove if present, succeed
with `{}` either way. -/
def deleteIndex (st : List String) (name : String) : HttpReply × List String :=
  (⟨200, .obj []⟩, st.filter (fun n => decide (n ≠ name)))

/-- Modelled from the spec: `HEAD /{index}` — 200 if the index exists,
otherwise 404. -/
def headIndexStatus (st : List String) (name : String) : Nat :=
  if name ∈ st then 200 else 404

end AcoustidIndex

namespace AcoustidIndex


theorem ldiff_two_pow_sub_one (n : ℕ) : ∀ m : ℕ, Nat.ldiff (2 ^ n - 1) m = 2 ^ n - 1 - m % 2 ^ n := by
  induction n with
  | zero =>
    intro m
    simp [Nat.ldiff, Nat.bitwise_zero_left]
  | succ n ih =>
    intro m
    have h3 : (1 : ℕ) ≤ 2 ^ n := Nat.one_le_two_pow
    have hbit : Nat.bit (m.testBit 0) (m >>> 1) = m := Nat.bit_testBit_zero_shiftRight_one m
    have hpow : (2 : ℕ) ^ (n + 1) - 1 = Nat.bit true (2 ^ n - 1) := by
      rw [Nat.bit_val, Nat.pow_succ, Bool.toNat_true]
      omega
    rw [hpow, ← hbit, Nat.ldiff_bit, ih]
    have h1 : (m >>> 1) % 2 ^ n < 2 ^ n := Nat.mod_lt _ (Nat.pos_pow_of_pos n (by norm_num))
    have h2 : (m.testBit 0).toNat ≤ 1 := Bool.toNat_le _
    have hmod : Nat.bit (m.testBit 0) (m >>> 1) % 2 ^ (n + 1)
        = 2 * ((m >>> 1) % 2 ^ n) + (m.testBit 0).toNat := by
      rw [Nat.bit_val, Nat.pow_succ]
      have hd := Nat.div_add_mod (m >>> 1) (2 ^ n)
      have hrw : 2 * (m >>> 1) + (m.testBit 0).toNat
          = (2 ^ n * 2) * ((m >>> 1) / 2 ^ n) + (2 * ((m >>> 1) % 2 ^ n) + (m.testBit 0).toNat) := by
        nlinarith [hd]
      rw [hrw, Nat.mul_add_mod]
      apply Nat.mod_eq_of_lt
      omega
    rw [hmod]
    cases hb : m.testBit 0 <;>
      simp only [hb, Nat.bit_val, Bool.toNat_true, Bool.toNat_false, Bool.not_true,
        Bool.not_false, Bool.true_and, Bool.false_and, Nat.pow_succ] <;>
      omega

theorem maskHash_eq_emod (v : Int) : maskHash v = v % (2 ^ 32) := by
  have hp : ((2 : Int) ^ 32) = 4294967296 := by norm_num
  have hpn : ((2 : ℕ) ^ 32) = 4294967296 := by norm_num
  unfold maskHash
  cases v with
  | ofNat m =>
    rw [show Int.land (Int.ofNat m) 0xffffffff = Int.ofNat (m &&& (2 ^ 32 - 1)) from rfl]
    rw [Nat.and_pow_two_sub_one_eq_mod, hp, hpn]
    simp only [Int.ofNat_eq_coe]
    omega
  | negSucc m =>
    rw [show Int.land (Int.negSucc m) 0xffffffff
        = Int.ofNat (Nat.ldiff (2 ^ 32 - 1) m) from rfl]
    rw [ldiff_two_pow_sub_one, hp, hpn, Int.negSucc_eq]
    simp only [Int.ofNat_eq_coe]
    omega





theorem applyBatch_ok_eq {st : IndexState} {b : UpdateBatch} {v : ℕ} {st2 : IndexState}
    (h : applyBatch st b = .ok (v, st2)) : (v, st2) = applyBatchOk st b := by
  unfold applyBatch at h
  split at h
  · split at h
    · exact (Except.ok.inj h).symm
    · exact absurd h (by simp)
  · exact (Except.ok.inj h).symm

theorem applyBatch_version {st : IndexState} {b : UpdateBatch} {v : ℕ} {st2 : IndexState}
    (h : applyBatch st b = .ok (v, st2)) :
    v = st.version + 1 ∧ st2.version = st.version + 1 := by
  have he := applyBatch_ok_eq h
  have h1 : v = (applyBatchOk st b).1 := congrArg Prod.fst he
  have h2 : st2 = (applyBatchOk st b).2 := congrArg Prod.snd he
  exact ⟨by rw [h1]; rfl, by rw [h2]; rfl⟩

theorem applyBatch_oplog {st : IndexState} {b : UpdateBatch} {v : ℕ} {st2 : IndexState}
    (h : applyBatch st b = .ok (v, st2)) :
    st2.oplog = st.oplog ++ [(v, b)] := by
  have he := applyBatch_ok_eq h
  have h1 : v = (applyBatchOk st b).1 := congrArg Prod.fst he
  have h2 : st2 = (applyBatchOk st b).2 := congrArg Prod.snd he
  rw [h2, h1]; rfl

theorem replayRecord_of_ok {st : IndexState} {b : UpdateBatch} {v : ℕ} {st2 : IndexState}
    (h : applyBatch st b = .ok (v, st2)) : replayRecord st (v, b) = st2 := by
  have he := applyBatch_ok_eq h
  have h1 : v = (applyBatchOk st b).1 := congrArg Prod.fst he
  have h2 : st2 = (applyBatchOk st b).2 := congrArg Prod.snd he
  rw [h2, h1]
  rfl

theorem recover_invariant : ∀ (bs : List UpdateBatch) (st st2 : IndexState),
    applyAllOk st bs = some st2 → recoverState st.oplog = st →
    recoverState st2.oplog = st2 := by
  intro bs
  induction bs with
  | nil =>
    intro st st2 h hI
    rw [show st2 = st from (Option.some.inj (by simpa [applyAllOk] using h)).symm]
    exact hI
  | cons b bs ih =>
    intro st st2 h hI
    rw [applyAllOk] at h
    cases hab : applyBatch st b with
    | error e => rw [hab] at h; cases h
    | ok p =>
      obtain ⟨v, st1⟩ := p
      rw [hab] at h
      refine ih st1 st2 h ?_
      rw [applyBatch_oplog hab]
      unfold recoverState at hI ⊢
      rw [List.foldl_append, hI]
      exact replayRecord_of_ok hab

theorem version_le_applyRun (st : IndexState) (b : UpdateBatch) :
    st.version ≤ (applyRun st b).version := by
  unfold applyRun
  cases hab : applyBatch st b with
  | error e => exact le_refl _
  | ok p =>
    obtain ⟨v, st2⟩ := p
    show st.version ≤ st2.version
    have := (applyBatch_version hab).2
    omega

theorem version_le_applyAll (bs : List UpdateBatch) : ∀ (st : IndexState),
    st.version ≤ (applyAll st bs).version := by
  induction bs with
  | nil => intro st; exact le_refl _
  | cons b bs ih =>
    intro st
    calc st.version ≤ (applyRun st b).version := version_le_applyRun st b
      _ ≤ (applyAll (applyRun st b) bs).version := ih _

theorem applyAllOk_version : ∀ (bs : List UpdateBatch) (st st2 : IndexState),
    applyAllOk st bs = some st2 → st2.version = st.version + bs.length := by
  intro bs
  induction bs with
  | nil =>
    intro st st2 h
    rw [show st2 = st from (Option.some.inj (by simpa [applyAllOk] using h)).symm]
    simp
  | cons b bs ih =>
    intro st st2 h
    rw [applyAllOk] at h
    cases hab : applyBatch st b with
    | error e => rw [hab] at h; cases h
    | ok p =>
      obtain ⟨v, st1⟩ := p
      rw [hab] at h
      have h1 := (applyBatch_version hab).2
      have := ih st1 st2 h
      simp only [List.length_cons]
      omega




theorem docScore_eq_card (q H : List ℕ) : docScore q H = (q.toFinset ∩ H.toFinset).card := by
  classical
  have h1 : (q.dedup.filter (fun h => decide (h ∈ H))).Nodup :=
    (List.nodup_dedup q).filter _
  unfold docScore
  rw [← List.dedup_eq_self.2 h1, ← List.card_toFinset, List.toFinset_filter]
  congr 1
  ext a
  simp [List.mem_dedup]

theorem applyBatch_docs {st : IndexState} {b : UpdateBatch} {v : ℕ} {st2 : IndexState}
    (h : applyBatch st b = .ok (v, st2)) :
    st2.docs = b.changes.foldl (applyChangeDocs (st.version + 1)) st.docs := by
  have h2 : st2 = (applyBatchOk st b).2 := congrArg Prod.snd (applyBatch_ok_eq h)
  rw [h2]; rfl

theorem applyBatch_single_insert_docs {st : IndexState} {b : UpdateBatch} {v : ℕ}
    {st2 : IndexState} {id : ℕ} {H : List ℕ}
    (h : applyBatch st b = .ok (v, st2)) (hc : b.changes = [.insert id H]) :
    st2.docs = (id, ⟨H, v⟩) :: st.docs.filter (fun p => decide (p.1 ≠ id)) := by
  rw [applyBatch_docs h, hc, (applyBatch_version h).1]
  rfl

theorem lookup_insert_head {id : ℕ} {d : Doc} {l : List (ℕ × Doc)} :
    (((id, d) :: l.filter (fun p => decide (p.1 ≠ id))).lookup id) = some d := by
  simp [List.lookup]




theorem renameKeys_obj (fields : List (String × Value)) :
    renameKeys (.obj fields) = .obj (fields.map (fun p => (longKey p.1, renameKeys p.2))) := by
  rw [renameKeys]
  congr 1
  rw [← List.attach_map_coe fields (fun p => (longKey p.1, renameKeys p.2))]

theorem renameKeys_arr (xs : List Value) :
    renameKeys (.arr xs) = .arr (xs.map renameKeys) := by
  rw [renameKeys]
  congr 1
  rw [← List.attach_map_coe xs renameKeys]

theorem renameKeys_result (r : SearchResult) :
    renameKeys (encodeResultShort r) = encodeResultLong r := by
  rw [encodeResultShort, encodeResultLong, renameKeys_obj]
  simp [longKey, renameKeys]

theorem renameKeys_search (resp : SearchResponse) :
    renameKeys (encodeSearchShort resp) = encodeSearchLong resp := by
  rw [encodeSearchShort, encodeSearchLong, renameKeys_obj]
  simp only [List.map_cons, List.map_nil, renameKeys_arr, List.map_map]
  have h : List.map (renameKeys ∘ encodeResultShort) resp.results
      = List.map encodeResultLong resp.results :=
    List.map_congr_left (fun a _ => renameKeys_result a)
  rw [h]
  simp [longKey]

theorem collectNats_map (q : List ℕ) : collectNats (q.map .num) = some q := by
  induction q with
  | nil => rfl
  | cons n rest ih => simp [collectNats, ih]

theorem parse_roundtrip (q : List ℕ) :
    parseSearchLong (encodeQueryLong q) = some q
      ∧ parseSearchShort (encodeQueryShort q) = some q := by
  constructor <;>
    simp [parseSearchLong, parseSearchShort, encodeQueryLong, encodeQueryShort,
      List.lookup, collectNats_map]




theorem lookup_filter_ne (id : ℕ) (l : List (ℕ × Doc)) :
    (l.filter (fun p => decide (p.1 ≠ id))).lookup id = none := by
  rw [List.lookup_eq_none_iff]
  intro b hmem
  have hf := List.mem_filter.1 hmem
  simp only [decide_eq_true_eq] at hf
  simp only [bne_iff_ne]
  exact fun h => hf.2 h.symm

theorem mem_insertSorted {x y : ℕ × ℕ} : ∀ {l : List (ℕ × ℕ)},
    y ∈ insertSorted x l ↔ y = x ∨ y ∈ l := by
  intro l
  induction l with
  | nil => simp [insertSorted]
  | cons z zs ih =>
    unfold insertSorted
    by_cases hc : resBefore x z
    · rw [if_pos hc]
      simp [List.mem_cons]
    · rw [if_neg hc]
      simp only [List.mem_cons, ih]
      tauto

theorem mem_sortResults {y : ℕ × ℕ} : ∀ {l : List (ℕ × ℕ)},
    y ∈ sortResults l ↔ y ∈ l := by
  intro l
  induction l with
  | nil => simp [sortResults]
  | cons z zs ih =>
    show y ∈ insertSorted z (sortResults zs) ↔ _
    rw [mem_insertSorted]
    simp only [List.mem_cons, ih]

theorem mem_searchResults {st : IndexState} {q : List ℕ} {L : ℕ} {r : ℕ × ℕ}
    (h : r ∈ searchResults st q L) :
    ∃ p, p ∈ st.docs ∧ r = (p.1, docScore q p.2.hashes) ∧ 0 < r.2 := by
  unfold searchResults at h
  have h2 := List.take_subset _ _ h
  rw [mem_sortResults] at h2
  rw [List.mem_filter] at h2
  obtain ⟨hmem, hpos⟩ := h2
  rw [List.mem_map] at hmem
  obtain ⟨p, hp, hr⟩ := hmem
  refine ⟨p, hp, hr.symm, ?_⟩
  simpa using hpos





set_option maxRecDepth 10000

/-- Claim C7: both StreamVByte decode tables are pure functions of the
variant and the control byte: each length-table entry is the sum of the four
2-bit codes' byte lengths, each shuffle mask holds exactly that many
non-negative entries, namely the consecutive input positions 0..len-1 in
lane order, and the lengths are bounded by 0..16 (0124) and 4..16 (1234). -/
theorem claim7_streamvbyte_tables :
    generate_length_table_0124 = (List.range 256).map claimLaneSum0124
    ∧ generate_length_table_1234 = (List.range 256).map claimLaneSum1234
    ∧ generate_shuffle_table_0124.map (fun mask => mask.filter (fun x => decide (0 ≤ x)))
        = generate_length_table_0124.map (fun len => (List.range len).map Int.ofNat)
    ∧ generate_shuffle_table_1234.map (fun mask => mask.filter (fun x => decide (0 ≤ x)))
        = generate_length_table_1234.map (fun len => (List.range len).map Int.ofNat)
    ∧ (generate_shuffle_table_0124.all (fun mask => mask.length == 16)) = true
    ∧ (generate_shuffle_table_1234.all (fun mask => mask.length == 16)) = true
    ∧ (generate_length_table_0124.all (fun v => v ≤ 16)) = true
    ∧ (generate_length_table_1234.all (fun v => 4 ≤ v && v ≤ 16)) = true := by
  refine ⟨?_, ?_, ?_, ?_, ?_, ?_, ?_, ?_⟩ <;> decide

/-- Claim C10: the legacy proxy's insert branch reduces every hash value
modulo 2^32 (`int(v) & 0xffffffff`): the forwarded hash is the residue of
the input in [0, 2^32), for negative inputs too, and the branch never
rejects a value. -/
theorem claim10_mask_hash :
    (∀ v : Int, maskHash v = v % 2 ^ 32 ∧ 0 ≤ maskHash v ∧ maskHash v < 2 ^ 32)
    ∧ (∀ (docId : Int) (hs : List Int),
        (insertChange docId hs).1 = docId
          ∧ (insertChange docId hs).2 = hs.map (fun v => v % 2 ^ 32)) := by
  constructor
  · intro v
    refine ⟨maskHash_eq_emod v, ?_, ?_⟩
    · rw [maskHash_eq_emod v]
      exact Int.emod_nonneg v (by norm_num)
    · rw [maskHash_eq_emod v]
      exact Int.emod_lt_of_pos v (by norm_num)
  · intro docId hs
    refine ⟨rfl, ?_⟩
    unfold insertChange
    exact List.map_congr_left (fun a _ => maskHash_eq_emod a)

/-- Claim C1: after `Insert {id, hashes}` is applied, the score of the doc
for any query Q is the number of distinct hashes in the intersection of Q
(as a set) with the doc's hash set; any search hit carrying the id carries
that score; duplicates in a query never raise a score (dedup invariance and
the bound of one per distinct hash); and the concrete scenario: inserting
id 1 with [101, 201, 301] into a fresh index and searching that same list
returns exactly [(1, 3)]. -/
theorem claim1_insert_search_score
    {st : IndexState} {b : UpdateBatch} {v : ℕ} {st2 : IndexState} {id : ℕ} {H : List ℕ}
    (hok : applyBatch st b = .ok (v, st2)) (hc : b.changes = [.insert id H]) :
    (∀ Q : List ℕ, scoreOf st2 Q id = (Q.toFinset ∩ H.toFinset).card)
    ∧ (∀ (Q : List ℕ) (L : ℕ) (r : ℕ × ℕ), r ∈ searchResults st2 Q L → r.1 = id →
        r.2 = (Q.toFinset ∩ H.toFinset).card)
    ∧ (∀ (stA : IndexState) (Q : List ℕ) (j : ℕ),
        scoreOf stA Q j = scoreOf stA Q.dedup j ∧ scoreOf stA Q j ≤ Q.dedup.length)
    ∧ search (applyRun emptyIndex ⟨[.insert 1 [101, 201, 301]], [], none⟩) [101, 201, 301]
        = [(1, 3)] := by
  have hdocs := applyBatch_single_insert_docs hok hc
  refine ⟨?_, ?_, ?_, by decide⟩
  · intro Q
    simp only [scoreOf, hdocs, lookup_insert_head]
    exact docScore_eq_card Q H
  · intro Q L r hr hid
    obtain ⟨p, hp, hre, hpos⟩ := mem_searchResults hr
    rw [hdocs] at hp
    rcases List.mem_cons.1 hp with hhead | htail
    · rw [hre, hhead]
      exact docScore_eq_card Q H
    · exfalso
      have hne := (List.mem_filter.1 htail).2
      simp only [decide_eq_true_eq] at hne
      rw [hre] at hid
      exact hne hid
  · intro stA Q j
    constructor
    · unfold scoreOf
      cases stA.docs.lookup j with
      | none => rfl
      | some d =>
        unfold docScore
        rw [List.dedup_idem]
    · unfold scoreOf
      cases stA.docs.lookup j with
      | none => exact Nat.zero_le _
      | some d => exact List.length_filter_le _ _

/-- Witness for C1: the hypotheses hold at a fresh index and a single
insert of id 1 with hashes [101, 201, 301]. -/
theorem claim1_witness :
    search (applyRun emptyIndex ⟨[.insert 1 [101, 201, 301]], [], none⟩) [101, 201, 301]
      = [(1, 3)] :=
  (claim1_insert_search_score
    (show applyBatch emptyIndex ⟨[.insert 1 [101, 201, 301]], [], none⟩
        = .ok (1, applyRun emptyIndex ⟨[.insert 1 [101, 201, 301]], [], none⟩) from rfl)
    rfl).2.2.2




/-- Claim C2: a second `Insert {id, H2}` after `Insert {id, H1}` fully
replaces the document: a query whose hashes lie in H1 \ H2 scores 0 for the
id and the id is absent from its results; a query within H2 scores the full
distinct intersection with H2; concretely, inserting [100, 200, 300] then
[100, 200, 999] for id 1 makes the query [100, 200, 300] score 2 and
[100, 200, 999] score 3. -/
theorem claim2_replace
    {st : IndexState} {b1 b2 : UpdateBatch} {v1 v2 : ℕ} {st1 st2 : IndexState}
    {id : ℕ} {H1 H2 : List ℕ}
    (h1 : applyBatch st b1 = .ok (v1, st1)) (hc1 : b1.changes = [.insert id H1])
    (h2 : applyBatch st1 b2 = .ok (v2, st2)) (hc2 : b2.changes = [.insert id H2]) :
    (∀ q : List ℕ, (∀ h ∈ q, h ∈ H1 ∧ h ∉ H2) →
        scoreOf st2 q id = 0
          ∧ ∀ (L : ℕ) (r : ℕ × ℕ), r ∈ searchResults st2 q L → r.1 ≠ id)
    ∧ (∀ q : List ℕ, (∀ h ∈ q, h ∈ H2) →
        scoreOf st2 q id = (q.toFinset ∩ H2.toFinset).card
          ∧ (q.toFinset ∩ H2.toFinset).card = q.dedup.length)
    ∧ search (applyRun (applyRun emptyIndex ⟨[.insert 1 [100, 200, 300]], [], none⟩)
        ⟨[.insert 1 [100, 200, 999]], [], none⟩) [100, 200, 300] = [(1, 2)]
    ∧ search (applyRun (applyRun emptyIndex ⟨[.insert 1 [100, 200, 300]], [], none⟩)
        ⟨[.insert 1 [100, 200, 999]], [], none⟩) [100, 200, 999] = [(1, 3)] := by
  have hdocs := applyBatch_single_insert_docs h2 hc2
  have hscore : ∀ q : List ℕ, scoreOf st2 q id = docScore q H2 := by
    intro q
    simp only [scoreOf, hdocs, lookup_insert_head]
  refine ⟨?_, ?_, by decide, by decide⟩
  · intro q hq
    have hzero : docScore q H2 = 0 := by
      unfold docScore
      rw [List.length_eq_zero, List.filter_eq_nil_iff]
      intro a ha
      have := (hq a (List.mem_dedup.1 ha)).2
      simpa using this
    constructor
    · rw [hscore, hzero]
    · intro L r hr hid
      obtain ⟨p, hp, hre, hpos⟩ := mem_searchResults hr
      rw [hdocs] at hp
      rcases List.mem_cons.1 hp with hhead | htail
      · rw [hre, hhead] at hpos
        simp only [hzero] at hpos
        exact absurd hpos (by simp)
      · have hne := (List.mem_filter.1 htail).2
        simp only [decide_eq_true_eq] at hne
        rw [hre] at hid
        exact hne hid
  · intro q hq
    refine ⟨by rw [hscore]; exact docScore_eq_card q H2, ?_⟩
    have hsub : q.toFinset ⊆ H2.toFinset := by
      intro a ha
      rw [List.mem_toFinset] at ha ⊢
      exact hq a ha
    rw [Finset.inter_eq_left.2 hsub, List.card_toFinset]

/-- Witness for C2: the hypotheses hold at a fresh index with id 1 inserted
as [100, 200, 300] and re-inserted as [100, 200, 999]. -/
theorem claim2_witness :
    search (applyRun (applyRun emptyIndex ⟨[.insert 1 [100, 200, 300]], [], none⟩)
        ⟨[.insert 1 [100, 200, 999]], [], none⟩) [100, 200, 300] = [(1, 2)] :=
  (claim2_replace
    (show applyBatch emptyIndex ⟨[.insert 1 [100, 200, 300]], [], none⟩
        = .ok (1, applyRun emptyIndex ⟨[.insert 1 [100, 200, 300]], [], none⟩) from rfl)
    rfl
    (show applyBatch (applyRun emptyIndex ⟨[.insert 1 [100, 200, 300]], [], none⟩)
          ⟨[.insert 1 [100, 200, 999]], [], none⟩
        = .ok (2, applyRun (applyRun emptyIndex ⟨[.insert 1 [100, 200, 300]], [], none⟩)
            ⟨[.insert 1 [100, 200, 999]], [], none⟩) from rfl)
    rfl).2.2.1

/-- Claim C3: `Delete {id}` after an insert removes the document completely:
`GET` fails with `FingerprintNotFound` (HTTP 404), the id appears in no
search result; concretely, after inserting id 1 with [100, 200, 300] into a
fresh index and deleting it, the query [100, 200, 300] returns []. -/
theorem claim3_delete
    {st : IndexState} {b1 b2 : UpdateBatch} {v1 v2 : ℕ} {st1 st2 : IndexState}
    {id : ℕ} {H : List ℕ}
    (h1 : applyBatch st b1 = .ok (v1, st1)) (hc1 : b1.changes = [.insert id H])
    (h2 : applyBatch st1 b2 = .ok (v2, st2)) (hc2 : b2.changes = [.delete id]) :
    getDoc st2 id = .error .fingerprintNotFound
    ∧ httpStatus .fingerprintNotFound = 404
    ∧ errName .fingerprintNotFound = "FingerprintNotFound"
    ∧ (∀ (q : List ℕ) (L : ℕ) (r : ℕ × ℕ), r ∈ searchResults st2 q L → r.1 ≠ id)
    ∧ search (applyRun (applyRun emptyIndex ⟨[.insert 1 [100, 200, 300]], [], none⟩)
        ⟨[.delete 1], [], none⟩) [100, 200, 300] = []
    ∧ getDoc (applyRun (applyRun emptyIndex ⟨[.insert 1 [100, 200, 300]], [], none⟩)
        ⟨[.delete 1], [], none⟩) 1 = .error .fingerprintNotFound := by
  have hdocs : st2.docs = st1.docs.filter (fun p => decide (p.1 ≠ id)) := by
    rw [applyBatch_docs h2, hc2]
    rfl
  refine ⟨?_, rfl, rfl, ?_, by decide, by rfl⟩
  · simp only [getDoc, hdocs, lookup_filter_ne]
  · intro q L r hr hid
    obtain ⟨p, hp, hre, _⟩ := mem_searchResults hr
    rw [hdocs] at hp
    have hne := (List.mem_filter.1 hp).2
    simp only [decide_eq_true_eq] at hne
    rw [hre] at hid
    exact hne hid

/-- Witness for C3: the hypotheses hold at a fresh index with id 1 inserted
and then deleted. -/
theorem claim3_witness :
    getDoc (applyRun (applyRun emptyIndex ⟨[.insert 1 [100, 200, 300]], [], none⟩)
        ⟨[.delete 1], [], none⟩) 1 = .error .fingerprintNotFound :=
  (claim3_delete
    (show applyBatch emptyIndex ⟨[.insert 1 [100, 200, 300]], [], none⟩
        = .ok (1, applyRun emptyIndex ⟨[.insert 1 [100, 200, 300]], [], none⟩) from rfl)
    rfl
    (show applyBatch (applyRun emptyIndex ⟨[.insert 1 [100, 200, 300]], [], none⟩)
          ⟨[.delete 1], [], none⟩
        = .ok (2, applyRun (applyRun emptyIndex ⟨[.insert 1 [100, 200, 300]], [], none⟩)
            ⟨[.delete 1], [], none⟩) from rfl)
    rfl).2.2.2.2.2




/-- Claim C4: a batch whose `expected_version` equals the current index
version is applied and succeeds; one whose `expected_version` differs fails
with `VersionMismatch` (HTTP 409) and leaves the index state unchanged. -/
theorem claim4_expected_version (st : IndexState) (b : UpdateBatch) :
    (b.expectedVersion = some st.version →
        applyBatch st b = .ok (st.version + 1, (applyBatchOk st b).2))
    ∧ (∀ ev : ℕ, b.expectedVersion = some ev → ev ≠ st.version →
        applyBatch st b = .error .versionMismatch
          ∧ applyRun st b = st
          ∧ httpStatus .versionMismatch = 409
          ∧ errName .versionMismatch = "VersionMismatch") := by
  constructor
  · intro hev
    simp only [applyBatch, hev]
    rw [if_pos trivial]
    rfl
  · intro ev hev hne
    have hmm : applyBatch st b = .error .versionMismatch := by
      simp only [applyBatch, hev]
      rw [if_neg hne]
    refine ⟨hmm, ?_, rfl, rfl⟩
    unfold applyRun
    rw [hmm]

/-- Witness for C4: on a fresh index, `expected_version = 0` succeeds and
`expected_version = 7` fails with `VersionMismatch`. -/
theorem claim4_witness :
    applyBatch emptyIndex ⟨[.insert 1 [100]], [], some 0⟩
        = .ok (1, (applyBatchOk emptyIndex ⟨[.insert 1 [100]], [], some 0⟩).2)
      ∧ applyBatch emptyIndex ⟨[.insert 1 [100]], [], some 7⟩ = .error .versionMismatch :=
  ⟨(claim4_expected_version emptyIndex ⟨[.insert 1 [100]], [], some 0⟩).1 rfl,
   ((claim4_expected_version emptyIndex ⟨[.insert 1 [100]], [], some 7⟩).2 7 rfl
      (by decide)).1⟩

/-- Claim C5: the version is a per-index counter: 0 on a fresh index, +1 per
successful batch, N after N successful batches, the version recorded for a
doc is the version of the batch that last inserted it, and any two
successful applies return strictly increasing versions. -/
theorem claim5_version_counter :
    emptyIndex.version = 0
    ∧ (∀ (st : IndexState) (b : UpdateBatch) (v : ℕ) (st2 : IndexState),
        applyBatch st b = .ok (v, st2) → v = st.version + 1 ∧ st2.version = v)
    ∧ (∀ (bs : List UpdateBatch) (st : IndexState),
        applyAllOk emptyIndex bs = some st → st.version = bs.length)
    ∧ (∀ (st : IndexState) (b : UpdateBatch) (v : ℕ) (st2 : IndexState) (id : ℕ)
        (H : List ℕ),
        applyBatch st b = .ok (v, st2) → b.changes = [.insert id H] →
        getDoc st2 id = .ok v)
    ∧ (∀ (st : IndexState) (b1 : UpdateBatch) (v1 : ℕ) (st1 : IndexState)
        (bs : List UpdateBatch) (b2 : UpdateBatch) (v2 : ℕ) (st2 : IndexState),
        applyBatch st b1 = .ok (v1, st1) →
        applyBatch (applyAll st1 bs) b2 = .ok (v2, st2) → v1 < v2) := by
  refine ⟨rfl, ?_, ?_, ?_, ?_⟩
  · intro st b v st2 h
    have hv := applyBatch_version h
    exact ⟨hv.1, by omega⟩
  · intro bs st h
    have hv := applyAllOk_version bs emptyIndex st h
    have h0 : emptyIndex.version = 0 := rfl
    omega
  · intro st b v st2 id H h hc
    simp only [getDoc, applyBatch_single_insert_docs h hc, lookup_insert_head]
  · intro st b1 v1 st1 bs b2 v2 st2 hh1 hh2
    have ha := (applyBatch_version hh1).1
    have hb := (applyBatch_version hh1).2
    have hc := (applyBatch_version hh2).1
    have hd := version_le_applyAll bs st1
    omega

/-- Witness for C5: one batch takes a fresh index to version 1, and a second
insert of the same id records doc version 2. -/
theorem claim5_witness :
    (applyRun emptyIndex ⟨[.insert 1 [100, 200, 300]], [], none⟩).version = 1
    ∧ getDoc (applyRun (applyRun emptyIndex ⟨[.insert 1 [100, 200, 300]], [], none⟩)
        ⟨[.insert 1 [100, 200, 999]], [], none⟩) 1 = .ok 2 :=
  ⟨claim5_version_counter.2.2.1 [⟨[.insert 1 [100, 200, 300]], [], none⟩]
      (applyRun emptyIndex ⟨[.insert 1 [100, 200, 300]], [], none⟩) rfl,
   claim5_version_counter.2.2.2.1
      (applyRun emptyIndex ⟨[.insert 1 [100, 200, 300]], [], none⟩)
      ⟨[.insert 1 [100, 200, 999]], [], none⟩ 2
      (applyRun (applyRun emptyIndex ⟨[.insert 1 [100, 200, 300]], [], none⟩)
        ⟨[.insert 1 [100, 200, 999]], [], none⟩) 1 [100, 200, 999] rfl rfl⟩

/-- Claim C6: every acknowledged batch survives restart: replaying the oplog
of any state reachable by successful batches from a fresh index rebuilds the
state exactly, so searches and `GET /{index}/{id}` agree before and after
recovery. -/
theorem claim6_durability (bs : List UpdateBatch) (st : IndexState)
    (h : applyAllOk emptyIndex bs = some st) :
    recoverState st.oplog = st
    ∧ (∀ q : List ℕ, search (recoverState st.oplog) q = search st q)
    ∧ (∀ id : ℕ, getDoc (recoverState st.oplog) id = getDoc st id) := by
  have hrec := recover_invariant bs emptyIndex st h rfl
  exact ⟨hrec, fun q => by rw [hrec], fun id => by rw [hrec]⟩

/-- Witness for C6: recovery from the oplog after one insert batch rebuilds
the state. -/
theorem claim6_witness :
    recoverState (applyRun emptyIndex ⟨[.insert 1 [100, 200, 300]], [], none⟩).oplog
      = applyRun emptyIndex ⟨[.insert 1 [100, 200, 300]], [], none⟩ :=
  (claim6_durability [⟨[.insert 1 [100, 200, 300]], [], none⟩]
    (applyRun emptyIndex ⟨[.insert 1 [100, 200, 300]], [], none⟩) rfl).1

/-- Claim C8: index creation and deletion are idempotent at the HTTP
surface: for a valid index name, two consecutive PUTs both return 200 with
body `{}` and leave the index existing (HEAD 200), and two consecutive
DELETEs both return 200 with body `{}` and leave it absent (HEAD 404). -/
theorem claim8_idempotent (st : List String) (name : String)
    (hname : validIndexName name = true) :
    (putIndex st name).1.status = 200
    ∧ (putIndex st name).1.body = .obj []
    ∧ (putIndex (putIndex st name).2 name).1.status = 200
    ∧ (putIndex (putIndex st name).2 name).1.body = .obj []
    ∧ headIndexStatus (putIndex (putIndex st name).2 name).2 name = 200
    ∧ (deleteIndex st name).1.status = 200
    ∧ (deleteIndex st name).1.body = .obj []
    ∧ (deleteIndex (deleteIndex st name).2 name).1.status = 200
    ∧ (deleteIndex (deleteIndex st name).2 name).1.body = .obj []
    ∧ headIndexStatus (deleteIndex (deleteIndex st name).2 name).2 name = 404 := by
  have hput : ∀ l : List String, putIndex l name
      = (⟨200, .obj []⟩, if name ∈ l then l else name :: l) := by
    intro l
    unfold putIndex
    rw [if_pos hname]
  have hmemput : ∀ l : List String, name ∈ (putIndex l name).2 := by
    intro l
    rw [hput l]
    by_cases hc : name ∈ l
    · rw [if_pos hc]
      exact hc
    · rw [if_neg hc]
      exact List.mem_cons_self name l
  have hnotmem : ∀ l : List String, name ∉ l.filter (fun n => decide (n ≠ name)) := by
    intro l hmem
    have := (List.mem_filter.1 hmem).2
    simp at this
  refine ⟨?_, ?_, ?_, ?_, ?_, rfl, rfl, rfl, rfl, ?_⟩
  · rw [hput st]
  · rw [hput st]
  · rw [hput (putIndex st name).2]
  · rw [hput (putIndex st name).2]
  · unfold headIndexStatus
    rw [if_pos (hmemput (putIndex st name).2)]
  · unfold headIndexStatus deleteIndex
    rw [if_neg (hnotmem _)]

/-- Witness for C8: the name `t1` is valid, so double PUT then HEAD and
double DELETE then HEAD behave as claimed from the empty server state. -/
theorem claim8_witness :
    headIndexStatus (putIndex (putIndex [] "t1").2 "t1").2 "t1" = 200
    ∧ headIndexStatus (deleteIndex (deleteIndex [] "t1").2 "t1").2 "t1" = 404 :=
  ⟨(claim8_idempotent [] "t1" (by decide)).2.2.2.2.1,
   (claim8_idempotent [] "t1" (by decide)).2.2.2.2.2.2.2.2.2⟩

/-- Claim C9: the JSON and MessagePack response encodings carry the same
information and differ by the fixed short-to-long key renaming: renaming the
short keys of a MessagePack search response yields exactly the JSON
response, in particular for the response of any query against any index
state, and decoding either request encoding yields the same domain query. -/
theorem claim9_encoding_iso :
    (∀ resp : SearchResponse, renameKeys (encodeSearchShort resp) = encodeSearchLong resp)
    ∧ (∀ (st : IndexState) (q : List ℕ),
        renameKeys (encodeSearchShort (searchResponseOf st q))
          = encodeSearchLong (searchResponseOf st q))
    ∧ (∀ q : List ℕ, parseSearchLong (encodeQueryLong q) = some q
        ∧ parseSearchShort (encodeQueryShort q) = some q) :=
  ⟨renameKeys_search, fun st q => renameKeys_search (searchResponseOf st q), parse_roundtrip⟩

end AcoustidIndex
